import Mathlib

/-!
# Lab 2 (PBR sphere grid): a shallow embedding of `src/main.cpp`

The embedding follows the C++ source function by function.

* `int` is a 32-bit two's-complement integer.  Signed overflow is undefined
  behaviour in C++; the model reports it as `Fault.signedOverflow`.
* `float` is IEEE-754 binary32 with round-to-nearest-even.  A finite value is
  the rational it denotes (the sign of zero is not tracked), and NaN and the
  two infinities are separate values.
* `std::sin`, `std::cos` and `glm::normalize` come from libraries outside the
  repository; they are a parameter (`MathLib`) of the mesh builder, and a
  statement that depends on their values assumes their accuracy
  (`SinCosAccurate`, `NormalizeAccurate`).
* OpenGL is modelled by the list of calls a function issues.
-/

namespace Lab2

/-! ## binary32 arithmetic -/

/-- Round a rational to the nearest integer, ties going to the even one. -/
def rne (x : ℚ) : ℤ :=
  let f := ⌊x⌋
  let r := x - f
  if r < 1 / 2 then f
  else if 1 / 2 < r then f + 1
  else if f % 2 = 0 then f else f + 1

/-- Exponent of the binade of `q`: `⌊log₂ |q|⌋`, not below the exponent `-126`
of the smallest normal number (below it the subnormal spacing applies). -/
def binade (q : ℚ) : ℤ := max (Int.log 2 |q|) (-126)

/-- Spacing of the binary32 numbers in the binade of `q` (24-bit significand). -/
def ulp (q : ℚ) : ℚ := (2 : ℚ) ^ (binade q - 23)

/-- Round to nearest-even on the binary32 grid, the exponent unbounded above. -/
def roundQ (q : ℚ) : ℚ := (rne (q / ulp q) : ℚ) * ulp q

/-- A `float`: NaN, an infinity with its sign, or a finite value. -/
inductive F32 where
  | nan
  | inf (neg : Bool)
  | fin (q : ℚ)
deriving DecidableEq

namespace F32

/-- The binary32 result of an exact value: rounded, and infinite when the
rounded magnitude reaches `2^128`. -/
def round (q : ℚ) : F32 :=
  let r := roundQ q
  if (2 : ℚ) ^ 128 ≤ |r| then inf (decide (q < 0)) else fin r

/-- A decimal literal with the `f` suffix, such as `0.05f`. -/
def lit (q : ℚ) : F32 := round q

/-- The conversion `float(i)` of an `int`. -/
def ofInt (i : ℤ) : F32 := round (i : ℚ)

/-- Unary minus. -/
def neg : F32 → F32
  | nan => nan
  | inf s => inf (!s)
  | fin q => fin (-q)

/-- The sum `a + b`. -/
def add : F32 → F32 → F32
  | fin a, fin b => round (a + b)
  | nan, _ => nan
  | _, nan => nan
  | inf s, inf t => if s = t then inf s else nan
  | inf s, fin _ => inf s
  | fin _, inf t => inf t

/-- The difference `a - b`. -/
def sub (a b : F32) : F32 := add a (neg b)

/-- The product `a * b`. -/
def mul : F32 → F32 → F32
  | fin a, fin b => round (a * b)
  | nan, _ => nan
  | _, nan => nan
  | inf s, inf t => inf (xor s t)
  | inf s, fin b => if b = 0 then nan else inf (xor s (decide (b < 0)))
  | fin a, inf t => if a = 0 then nan else inf (xor (decide (a < 0)) t)

/-- The quotient `a / b`.  A zero divisor gives NaN for `0 / 0` and an
infinity otherwise. -/
def div : F32 → F32 → F32
  | fin a, fin b =>
    if b = 0 then (if a = 0 then nan else inf (decide (a < 0))) else round (a / b)
  | nan, _ => nan
  | _, nan => nan
  | inf _, inf _ => nan
  | inf s, fin b => inf (xor s (decide (b < 0)))
  | fin _, inf _ => fin 0

end F32

/-! ## 32-bit integers -/

/-- Largest `int`. -/
def INT_MAX : ℤ := 2147483647

/-- Smallest `int`. -/
def INT_MIN : ℤ := -2147483648

/-- Ways a call can fail to return. -/
inductive Fault where
  | signedOverflow
  | lengthError
deriving DecidableEq, Repr

/-- The result of an `int` operation whose exact value is `x`. -/
def checkedInt (x : ℤ) : Except Fault ℤ :=
  if INT_MIN ≤ x ∧ x ≤ INT_MAX then .ok x else .error .signedOverflow

/-- Conversion of an `int` to `unsigned int` (as `idx.push_back(a)` does). -/
def toUInt (x : ℤ) : ℕ := (x % 4294967296).toNat

/-- The conversion `static_cast<GLsizei>(n)` of a size to a 32-bit signed integer. -/
def toGLsizei (n : ℕ) : ℤ := ((n : ℤ) + 2147483648) % 4294967296 - 2147483648

/-- The loop `for (int i = 0; i < n; ++i) s = body(s, i);`. -/
def forLoop {σ : Type} (n : ℤ) (body : σ → ℤ → σ) (init : σ) : σ :=
  (List.range n.toNat).foldl (fun (s : σ) (k : ℕ) => body s (k : ℤ)) init

/-! ## OpenGL calls and the mesh handle -/

/-- Buffer binding targets. -/
inductive BufTarget where
  | arrayBuffer
  | elementArrayBuffer
deriving DecidableEq, Repr

/-- Named uniforms of the PBR shader that the draw loop uploads. -/
inductive Uniform where
  | uModel
  | uMetallic
  | uRoughness
deriving DecidableEq, Repr

/-- The OpenGL calls issued by the modelled functions.  `uniform1f u x` is
`glUniform1f` on the location of uniform `u`; `uniformModel u tx ty tz s` is
`glUniformMatrix4fv` on the location of `u` with the model matrix that
translates by `(tx, ty, tz)` and scales by `s`; `drawElements n` draws `n`
indices as triangles. -/
inductive GLCall where
  | genVertexArrays (name : ℕ)
  | bindVertexArray (name : ℕ)
  | genBuffers (name : ℕ)
  | bindBuffer (target : BufTarget) (name : ℕ)
  | bufferDataFloat (target : BufTarget) (bytes : ℕ) (data : List F32)
  | bufferDataUInt (target : BufTarget) (bytes : ℕ) (data : List ℕ)
  | vertexAttribPointer (index size strideBytes offsetBytes : ℕ)
  | enableVertexAttribArray (index : ℕ)
  | deleteBuffers (name : ℕ)
  | deleteVertexArrays (name : ℕ)
  | uniform1f (u : Uniform) (value : F32)
  | uniformModel (u : Uniform) (tx ty tz scale : F32)
  | drawElements (count : ℤ)
deriving DecidableEq

/-- The struct `MeshGL`: three object names and the index count. -/
structure MeshGL where
  VAO : ℕ := 0
  VBO : ℕ := 0
  EBO : ℕ := 0
  indexCount : ℤ := 0
deriving DecidableEq, Repr

/-- The method `MeshGL::destroy`: the handle afterwards and the calls issued. -/
def MeshGL.destroy (m : MeshGL) : MeshGL × List GLCall :=
  let c1 := if m.EBO ≠ 0 then [GLCall.deleteBuffers m.EBO] else []
  let c2 := if m.VBO ≠ 0 then [GLCall.deleteBuffers m.VBO] else []
  let c3 := if m.VAO ≠ 0 then [GLCall.deleteVertexArrays m.VAO] else []
  ({ VAO := 0, VBO := 0, EBO := 0, indexCount := 0 }, c1 ++ c2 ++ c3)

/-- Object names handed out by `glGenVertexArrays` and the two `glGenBuffers`. -/
structure GLNames where
  vao : ℕ
  vbo : ℕ
  ebo : ℕ
deriving DecidableEq, Repr

/-- The function `buildIndexedMesh`: the handle returned and the calls issued. -/
def buildIndexedMesh (g : GLNames) (positions : List F32) (indices : List ℕ) :
    MeshGL × List GLCall :=
  ({ VAO := g.vao, VBO := g.vbo, EBO := g.ebo, indexCount := toGLsizei indices.length },
   [ .genVertexArrays g.vao,
     .bindVertexArray g.vao,
     .genBuffers g.vbo,
     .bindBuffer .arrayBuffer g.vbo,
     .bufferDataFloat .arrayBuffer (positions.length * 4) positions,
     .genBuffers g.ebo,
     .bindBuffer .elementArrayBuffer g.ebo,
     .bufferDataUInt .elementArrayBuffer (indices.length * 4) indices,
     .vertexAttribPointer 0 3 (8 * 4) 0,
     .enableVertexAttribArray 0,
     .vertexAttribPointer 1 3 (8 * 4) (3 * 4),
     .enableVertexAttribArray 1,
     .vertexAttribPointer 2 2 (8 * 4) (6 * 4),
     .enableVertexAttribArray 2,
     .bindVertexArray 0 ])

/-! ## The sphere builder -/

/-- The library functions `makeSphere` calls. -/
structure MathLib where
  sin : F32 → F32
  cos : F32 → F32
  normalize : F32 × F32 × F32 → F32 × F32 × F32

/-- The constant `PI` of `makeSphere`. -/
def PI : F32 := F32.lit (314159265358979323846 / 100000000000000000000)

/-- The eight floats pushed for grid point `(i, j)`: position, normal, uv. -/
def vertexAt (lm : MathLib) (nstacks nslices i j : ℤ) : List F32 :=
  let t := F32.div (F32.ofInt i) (F32.ofInt nstacks)
  let phi := F32.mul t PI
  let s := F32.div (F32.ofInt j) (F32.ofInt nslices)
  let theta := F32.mul (F32.mul s (F32.lit 2)) PI
  let x := F32.mul (lm.sin phi) (lm.cos theta)
  let y := lm.cos phi
  let z := F32.mul (lm.sin phi) (lm.sin theta)
  let n := lm.normalize (x, y, z)
  [x, y, z, n.1, n.2.1, n.2.2, s, F32.sub (F32.lit 1) t]

/-- The first loop nest of `makeSphere`: the final value of `v`.  The loop
conditions `i <= stacks` and `j <= slices` are `i < stacks + 1` and
`j < slices + 1`. -/
def sphereVertices (lm : MathLib) (nstacks nslices : ℤ) : List F32 :=
  forLoop (nstacks + 1)
    (fun v i => forLoop (nslices + 1) (fun v j => v ++ vertexAt lm nstacks nslices i j) v) []

/-- The six indices pushed for cell `(i, j)`. -/
def cellIndices (ring i j : ℤ) : List ℕ :=
  let a := i * ring + j
  let b := (i + 1) * ring + j
  let c := (i + 1) * ring + (j + 1)
  let d := i * ring + (j + 1)
  [toUInt a, toUInt b, toUInt c, toUInt a, toUInt c, toUInt d]

/-- The second loop nest of `makeSphere`: the final value of `idx`. -/
def sphereIndices (nstacks nslices : ℤ) : List ℕ :=
  let ring := nslices + 1
  forLoop nstacks (fun idx i => forLoop nslices (fun idx j => idx ++ cellIndices ring i j) idx) []

/-- The argument `(nstacks + 1) * (nslices + 1) * 8` of `v.reserve`, every
intermediate result an `int`. -/
def reserveArg (nstacks nslices : ℤ) : Except Fault ℤ := do
  let a ← checkedInt (nstacks + 1)
  let b ← checkedInt (nslices + 1)
  let ab ← checkedInt (a * b)
  checkedInt (ab * 8)

/-- What a call of `makeSphere` leaves behind: the local buffers `v` and
`idx`, the handle returned and the OpenGL calls issued. -/
structure SphereBuild where
  v : List F32
  idx : List ℕ
  mesh : MeshGL
  calls : List GLCall
deriving DecidableEq

/-- The function `makeSphere`.  `v.reserve` converts its `int` argument to an
unsigned size, so a negative argument exceeds `max_size()` and throws
`std::length_error`.  Once the argument of `reserve` has been computed without
overflow and is not negative, every later `int` value (loop counters, `ring`,
the four corner indices) lies between `0` and `(nstacks + 1) * (nslices + 1)`,
so the loops are written with exact integers. -/
def makeSphere (lm : MathLib) (g : GLNames) (nstacks nslices : ℤ) : Except Fault SphereBuild := do
  let n ← reserveArg nstacks nslices
  if n < 0 then throw Fault.lengthError
  let v := sphereVertices lm nstacks nslices
  let idx := sphereIndices nstacks nslices
  let built := buildIndexedMesh g v idx
  pure { v := v, idx := idx, mesh := built.1, calls := built.2 }

/-- The value `makeSphere` returns when no fault occurs. -/
def sphereBuild (lm : MathLib) (g : GLNames) (S L : ℕ) : SphereBuild :=
  { v := sphereVertices lm S L
    idx := sphereIndices S L
    mesh := (buildIndexedMesh g (sphereVertices lm S L) (sphereIndices S L)).1
    calls := (buildIndexedMesh g (sphereVertices lm S L) (sphereIndices S L)).2 }

/-- A library whose three functions return their argument; it instantiates
statements that hold for every library. -/
def identityMath : MathLib := ⟨fun x => x, fun x => x, fun p => p⟩

/-- Key state `GLFW_PRESS` (value of the GLFW header). -/
def GLFW_PRESS : ℤ := 1

/-- Key state `GLFW_RELEASE` (value of the GLFW header). -/
def GLFW_RELEASE : ℤ := 0

/-- Largest key code `GLFW_KEY_LAST` (value of the GLFW header). -/
def GLFW_KEY_LAST : ℕ := 348

/-- A key code: an index into `prev[GLFW_KEY_LAST + 1]`. -/
abbrev Key := Fin (GLFW_KEY_LAST + 1)

/-- Key code `GLFW_KEY_ESCAPE`. -/
def GLFW_KEY_ESCAPE : Key := 256

/-- Key code `GLFW_KEY_G`. -/
def GLFW_KEY_G : Key := 71

/-- Key code `GLFW_KEY_C`. -/
def GLFW_KEY_C : Key := 67

/-- The static array `prev`, zero-initialised. -/
def initialPrev : Key → ℤ := fun _ => 0

/-- The lambda `pressedOnce`; `cur` is what `glfwGetKey(w, key)` returns.
The result is `fired` and the array `prev` afterwards. -/
def pressedOnce (prev : Key → ℤ) (key : Key) (cur : ℤ) : Bool × (Key → ℤ) :=
  let fired := decide (cur = GLFW_PRESS ∧ prev key ≠ GLFW_PRESS)
  (fired, Function.update prev key cur)

/-- A run of polls, each a key and the state read for it: for every poll the
key and whether it fired, and the array `prev` at the end. -/
def pollAll (prev : Key → ℤ) : List (Key × ℤ) → List (Key × Bool) × (Key → ℤ)
  | [] => ([], prev)
  | (key, cur) :: rest =>
    let r := pressedOnce prev key cur
    let rs := pollAll r.2 rest
    ((key, r.1) :: rs.1, rs.2)

/-- A `glm::vec3`. -/
structure Vec3 where
  x : F32
  y : F32
  z : F32
deriving DecidableEq

/-- The state the input handling of `main` reads and writes. -/
structure Scene where
  albedo : Vec3
  preset : ℤ
  singleSphere : Bool
  shouldClose : Bool
  prev : Key → ℤ

/-- The state of `main` when the loop is entered. -/
def initialScene : Scene :=
  { albedo := ⟨F32.lit 1.0, F32.lit 0.886, F32.lit 0.608⟩
    preset := 0
    singleSphere := false
    shouldClose := false
    prev := initialPrev }

/-- The body run when `pressedOnce(GLFW_KEY_C)` fires. -/
def cyclePreset (s : Scene) : Scene :=
  let preset := Int.tmod (s.preset + 1) 3
  let a0 := if preset = 0 then ⟨F32.lit 1.0, F32.lit 0.886, F32.lit 0.608⟩ else s.albedo
  let a1 := if preset = 1 then ⟨F32.lit 0.955, F32.lit 0.638, F32.lit 0.538⟩ else a0
  let a2 := if preset = 2 then ⟨F32.lit 0.804, F32.lit 0.498, F32.lit 0.196⟩ else a1
  { s with preset := preset, albedo := a2 }

/-- The input handling of one frame; `getKey` is `glfwGetKey(w, ·)`. -/
def processInput (getKey : Key → ℤ) (s : Scene) : Scene :=
  let e := pressedOnce s.prev GLFW_KEY_ESCAPE (getKey GLFW_KEY_ESCAPE)
  let s1 : Scene := if e.1 then { s with shouldClose := true, prev := e.2 } else { s with prev := e.2 }
  let g := pressedOnce s1.prev GLFW_KEY_G (getKey GLFW_KEY_G)
  let s2 : Scene :=
    if g.1 then { s1 with singleSphere := !s1.singleSphere, prev := g.2 } else { s1 with prev := g.2 }
  let c := pressedOnce s2.prev GLFW_KEY_C (getKey GLFW_KEY_C)
  if c.1 then cyclePreset { s2 with prev := c.2 } else { s2 with prev := c.2 }

/-- Grid rows (metallic axis). -/
def rows : ℤ := 5

/-- Grid columns (roughness axis). -/
def cols : ℤ := 5

/-- Distance between spheres. -/
def spacing : F32 := F32.lit 2.2

/-- The constant `startX = -0.5f * (cols - 1) * spacing`. -/
def startX : F32 := F32.mul (F32.mul (F32.neg (F32.lit 0.5)) (F32.ofInt (cols - 1))) spacing

/-- The constant `startY = -0.5f * (rows - 1) * spacing`. -/
def startY : F32 := F32.mul (F32.mul (F32.neg (F32.lit 0.5)) (F32.ofInt (rows - 1))) spacing

/-- The metallic value `m` of row `r`. -/
def gridMetallic (r : ℤ) : F32 := F32.div (F32.ofInt r) (F32.ofInt (rows - 1))

/-- The roughness value `rough` of column `c`. -/
def gridRoughness (c : ℤ) : F32 :=
  let t := F32.div (F32.ofInt c) (F32.ofInt (cols - 1))
  F32.add (F32.lit 0.05) (F32.mul t (F32.sub (F32.lit 1.0) (F32.lit 0.05)))

/-- The calls issued for cell `(r, c)` of the grid. -/
def gridCell (sphere : MeshGL) (r c : ℤ) : List GLCall :=
  let x := F32.add startX (F32.mul (F32.ofInt c) spacing)
  let y := F32.add startY (F32.mul (F32.ofInt (rows - 1 - r)) spacing)
  [ .uniform1f .uRoughness (gridRoughness c),
    .uniformModel .uModel x y (F32.lit 0.0) (F32.lit 1.0),
    .drawElements sphere.indexCount ]

/-- The sphere drawing of one frame, between the two `glBindVertexArray` calls. -/
def drawSpheres (singleSphere : Bool) (sphere : MeshGL) : List GLCall :=
  if singleSphere then
    [ .uniform1f .uMetallic (F32.lit 1.0),
      .uniform1f .uRoughness (F32.lit 0.2),
      .uniformModel .uModel (F32.lit 0.0) (F32.lit 0.0) (F32.lit 0.0) (F32.lit 2.0),
      .drawElements sphere.indexCount ]
  else
    forLoop rows
      (fun calls r =>
        forLoop cols (fun calls c => calls ++ gridCell sphere r c)
          (calls ++ [.uniform1f .uMetallic (gridMetallic r)]))
      []

/-- The flags `fired` of the polls of key `k` in a run of polls that starts
from the zero-initialised `prev`. -/
def firedFor (k : Key) (ps : List (Key × ℤ)) : List Bool :=
  ((pollAll initialPrev ps).1.filter (fun p => decide (p.1 = k))).map (fun p => p.2)

/-- The states read for key `k` in a run of polls. -/
def readingsFor (k : Key) (ps : List (Key × ℤ)) : List ℤ :=
  (ps.filter (fun p => decide (p.1 = k))).map (fun p => p.2)

/-- Poll `n` of a key starts a maximal run of `GLFW_PRESS` readings: it reads
`GLFW_PRESS` and it is the first poll or the poll before it read something else. -/
def startsRun (cs : List ℤ) (n : ℕ) : Prop :=
  cs[n]? = some GLFW_PRESS ∧ (n = 0 ∨ cs[n - 1]? ≠ some GLFW_PRESS)

instance (cs : List ℤ) (n : ℕ) : Decidable (startsRun cs n) := by
  unfold startsRun
  infer_instance

/-! ## Loops as concatenations -/

theorem foldl_append_flatMap {α β : Type} (f : α → List β) (l : List α) (init : List β) :
    l.foldl (fun s k => s ++ f k) init = init ++ l.flatMap f := by
  induction l generalizing init with
  | nil => simp
  | cons a l ih => simp [List.foldl_cons, ih, List.flatMap_cons, List.append_assoc]

theorem forLoop_append {β : Type} (n : ℕ) (f : ℤ → List β) (init : List β) :
    forLoop (n : ℤ) (fun s i => s ++ f i) init
      = init ++ (List.range n).flatMap (fun k => f (k : ℤ)) := by
  unfold forLoop
  rw [Int.toNat_ofNat]
  exact foldl_append_flatMap (fun k : ℕ => f (k : ℤ)) (List.range n) init

theorem length_flatMap_range {β : Type} (f : ℕ → List β) (m : ℕ)
    (hf : ∀ k, (f k).length = m) (n : ℕ) :
    ((List.range n).flatMap f).length = n * m := by
  induction n with
  | zero => simp
  | succ n ih =>
    rw [List.range_succ, List.flatMap_append, List.length_append, ih]
    simp [hf, Nat.succ_mul]

theorem getElem?_flatMap_range {β : Type} (f : ℕ → List β) (m : ℕ)
    (hf : ∀ k, (f k).length = m) (n i r : ℕ) (hi : i < n) (hr : r < m) :
    ((List.range n).flatMap f)[i * m + r]? = (f i)[r]? := by
  induction n with
  | zero => omega
  | succ n ih =>
    rw [List.range_succ, List.flatMap_append]
    have hlen := length_flatMap_range f m hf n
    by_cases h : i < n
    · have hlt : i * m + r < ((List.range n).flatMap f).length := by
        rw [hlen]
        calc i * m + r < i * m + m := by omega
          _ = (i + 1) * m := by ring
          _ ≤ n * m := Nat.mul_le_mul_right m h
      rw [List.getElem?_append_left hlt]
      exact ih h
    · have hin : i = n := by omega
      subst hin
      have hge : ((List.range i).flatMap f).length ≤ i * m + r := by rw [hlen]; omega
      rw [List.getElem?_append_right hge, hlen]
      simp

/-! ## What `makeSphere` computes when the sizes fit an `int` -/

theorem sphereVertices_eq (lm : MathLib) (S L : ℕ) :
    sphereVertices lm S L
      = (List.range (S + 1)).flatMap (fun i =>
          (List.range (L + 1)).flatMap (fun j => vertexAt lm S L i j)) := by
  unfold sphereVertices
  have h1 : ((S : ℤ) + 1) = ((S + 1 : ℕ) : ℤ) := by push_cast; ring
  have h2 : ((L : ℤ) + 1) = ((L + 1 : ℕ) : ℤ) := by push_cast; ring
  rw [h1, h2]
  have inner : (fun (v : List F32) (i : ℤ) =>
      forLoop ((L + 1 : ℕ) : ℤ) (fun v j => v ++ vertexAt lm S L i j) v)
      = fun v i => v ++ (List.range (L + 1)).flatMap (fun j => vertexAt lm S L i (j : ℤ)) := by
    funext v i
    exact forLoop_append (L + 1) (fun j => vertexAt lm S L i j) v
  rw [inner, forLoop_append]
  simp

theorem sphereIndices_eq (S L : ℕ) :
    sphereIndices S L
      = (List.range S).flatMap (fun i =>
          (List.range L).flatMap (fun j => cellIndices ((L : ℤ) + 1) i j)) := by
  unfold sphereIndices
  have inner : (fun (idx : List ℕ) (i : ℤ) =>
      forLoop (L : ℤ) (fun idx j => idx ++ cellIndices ((L : ℤ) + 1) i j) idx)
      = fun idx i => idx ++ (List.range L).flatMap (fun j => cellIndices ((L : ℤ) + 1) i (j : ℤ)) := by
    funext idx i
    exact forLoop_append L (fun j => cellIndices ((L : ℤ) + 1) i j) idx
  simp only []
  rw [inner, forLoop_append]
  simp

theorem checkedInt_ok (x : ℤ) (h1 : -2147483648 ≤ x) (h2 : x ≤ 2147483647) :
    checkedInt x = .ok x := by
  unfold checkedInt INT_MIN INT_MAX
  exact if_pos ⟨h1, h2⟩

theorem checkedInt_overflow (x : ℤ) (h : 2147483647 < x) :
    checkedInt x = .error .signedOverflow := by
  unfold checkedInt INT_MIN INT_MAX
  exact if_neg (fun hx => absurd hx.2 (not_le.mpr h))

theorem reserveArg_ok (a b : ℤ) (c1 : checkedInt (a + 1) = .ok (a + 1))
    (c2 : checkedInt (b + 1) = .ok (b + 1))
    (c3 : checkedInt ((a + 1) * (b + 1)) = .ok ((a + 1) * (b + 1)))
    (c4 : checkedInt ((a + 1) * (b + 1) * 8) = .ok ((a + 1) * (b + 1) * 8)) :
    reserveArg a b = .ok ((a + 1) * (b + 1) * 8) := by
  unfold reserveArg
  simp only [bind, Except.bind, c1, c2, c3, c4]

theorem reserveArg_error (a b : ℤ) (c1 : checkedInt (a + 1) = .ok (a + 1))
    (c2 : checkedInt (b + 1) = .ok (b + 1))
    (c : checkedInt ((a + 1) * (b + 1)) = .error .signedOverflow
      ∨ (checkedInt ((a + 1) * (b + 1)) = .ok ((a + 1) * (b + 1))
          ∧ checkedInt ((a + 1) * (b + 1) * 8) = .error .signedOverflow)) :
    reserveArg a b = .error .signedOverflow := by
  unfold reserveArg
  rcases c with c3 | ⟨c3, c4⟩
  · simp only [bind, Except.bind, c1, c2, c3]
  · simp only [bind, Except.bind, c1, c2, c3, c4]

theorem fits_bounds (S L : ℕ) (hfit : (S + 1) * (L + 1) * 8 ≤ 2147483647) :
    ((S : ℤ) + 1 ≤ 2147483647 ∧ (L : ℤ) + 1 ≤ 2147483647)
      ∧ ((S : ℤ) + 1) * ((L : ℤ) + 1) ≤ 2147483647
      ∧ ((S : ℤ) + 1) * ((L : ℤ) + 1) * 8 ≤ 2147483647 := by
  have h1 : S + 1 ≤ (S + 1) * (L + 1) := Nat.le_mul_of_pos_right _ (by omega)
  have h2 : L + 1 ≤ (S + 1) * (L + 1) := Nat.le_mul_of_pos_left _ (by omega)
  have e3 : ((S : ℤ) + 1) * ((L : ℤ) + 1) = (((S + 1) * (L + 1) : ℕ) : ℤ) := by push_cast; ring
  rw [e3]
  generalize (S + 1) * (L + 1) = p at *
  omega

theorem reserveArg_fits (S L : ℕ) (hfit : (S + 1) * (L + 1) * 8 ≤ 2147483647) :
    reserveArg S L = .ok (((S : ℤ) + 1) * ((L : ℤ) + 1) * 8) := by
  obtain ⟨⟨b1, b2⟩, b3, b4⟩ := fits_bounds S L hfit
  have n3 : (0 : ℤ) ≤ ((S : ℤ) + 1) * ((L : ℤ) + 1) := by positivity
  exact reserveArg_ok S L (checkedInt_ok _ (by omega) b1) (checkedInt_ok _ (by omega) b2)
    (checkedInt_ok _ (by omega) b3) (checkedInt_ok _ (by omega) b4)

theorem reserveArg_stop_left (a b : ℤ) (c1 : checkedInt (a + 1) = .error .signedOverflow) :
    reserveArg a b = .error .signedOverflow := by
  unfold reserveArg
  simp only [bind, Except.bind, c1]

theorem reserveArg_stop_right (a b : ℤ) (c1 : checkedInt (a + 1) = .ok (a + 1))
    (c2 : checkedInt (b + 1) = .error .signedOverflow) :
    reserveArg a b = .error .signedOverflow := by
  unfold reserveArg
  simp only [bind, Except.bind, c1, c2]

theorem reserveArg_overflow (S L : ℕ) (hbig : 2147483647 < (S + 1) * (L + 1) * 8) :
    reserveArg S L = .error .signedOverflow := by
  have e3 : ((S : ℤ) + 1) * ((L : ℤ) + 1) = (((S + 1) * (L + 1) : ℕ) : ℤ) := by push_cast; ring
  by_cases b1 : (S : ℤ) + 1 ≤ 2147483647
  · by_cases b2 : (L : ℤ) + 1 ≤ 2147483647
    · refine reserveArg_error S L (checkedInt_ok _ (by omega) b1)
        (checkedInt_ok _ (by omega) b2) ?_
      rw [e3]
      generalize (S + 1) * (L + 1) = p at *
      by_cases b3 : (p : ℤ) ≤ 2147483647
      · exact Or.inr ⟨checkedInt_ok _ (by omega) b3, checkedInt_overflow _ (by omega)⟩
      · exact Or.inl (checkedInt_overflow _ (by omega))
    · exact reserveArg_stop_right S L (checkedInt_ok _ (by omega) b1)
        (checkedInt_overflow _ (by omega))
  · exact reserveArg_stop_left S L (checkedInt_overflow _ (by omega))

theorem makeSphere_fits (lm : MathLib) (g : GLNames) (S L : ℕ)
    (hfit : (S + 1) * (L + 1) * 8 ≤ 2147483647) :
    makeSphere lm g S L = .ok (sphereBuild lm g S L) := by
  unfold makeSphere
  rw [reserveArg_fits S L hfit]
  have : ¬ (((S : ℤ) + 1) * ((L : ℤ) + 1) * 8 < 0) := by
    have n3 : (0 : ℤ) ≤ ((S : ℤ) + 1) * ((L : ℤ) + 1) := by positivity
    omega
  simp only [bind, Except.bind, this, if_false, pure, Except.pure, sphereBuild]

theorem makeSphere_overflow (lm : MathLib) (g : GLNames) (S L : ℕ)
    (hbig : 2147483647 < (S + 1) * (L + 1) * 8) :
    makeSphere lm g S L = .error .signedOverflow := by
  unfold makeSphere
  rw [reserveArg_overflow S L hbig]
  rfl

theorem makeSphere_ok_iff (lm : MathLib) (g : GLNames) (S L : ℕ) (r : SphereBuild) :
    makeSphere lm g S L = .ok r
      ↔ (S + 1) * (L + 1) * 8 ≤ 2147483647 ∧ r = sphereBuild lm g S L := by
  constructor
  · intro h
    by_cases hfit : (S + 1) * (L + 1) * 8 ≤ 2147483647
    · rw [makeSphere_fits lm g S L hfit] at h
      exact ⟨hfit, (Except.ok.inj h).symm⟩
    · rw [makeSphere_overflow lm g S L (by omega)] at h
      cases h
  · rintro ⟨hfit, rfl⟩
    exact makeSphere_fits lm g S L hfit

/-! ## Sizes and entries of the two buffers -/

theorem length_vertexAt (lm : MathLib) (a b i j : ℤ) : (vertexAt lm a b i j).length = 8 := rfl

theorem length_cellIndices (ring i j : ℤ) : (cellIndices ring i j).length = 6 := rfl

theorem length_sphereVertices (lm : MathLib) (S L : ℕ) :
    (sphereVertices lm S L).length = (S + 1) * (L + 1) * 8 := by
  rw [sphereVertices_eq,
    length_flatMap_range _ ((L + 1) * 8)
      (fun i => length_flatMap_range _ 8 (fun j => length_vertexAt lm S L i j) (L + 1)) (S + 1)]
  ring

theorem length_sphereIndices (S L : ℕ) : (sphereIndices S L).length = S * L * 6 := by
  rw [sphereIndices_eq,
    length_flatMap_range _ (L * 6)
      (fun i => length_flatMap_range _ 6 (fun j => length_cellIndices _ i j) L) S]
  ring

theorem getElem?_sphereVertices (lm : MathLib) (S L i j t : ℕ) (hi : i ≤ S) (hj : j ≤ L)
    (ht : t < 8) :
    (sphereVertices lm S L)[8 * (i * (L + 1) + j) + t]? = (vertexAt lm S L i j)[t]? := by
  have e : 8 * (i * (L + 1) + j) + t = i * ((L + 1) * 8) + (j * 8 + t) := by ring
  rw [sphereVertices_eq, e,
    getElem?_flatMap_range _ ((L + 1) * 8)
      (fun i => length_flatMap_range _ 8 (fun j => length_vertexAt lm S L i j) (L + 1))
      (S + 1) i (j * 8 + t) (by omega) (by omega)]
  exact getElem?_flatMap_range _ 8 (fun j => length_vertexAt lm S L i j) (L + 1) j t
    (by omega) ht

theorem getElem?_sphereIndices (S L i j t : ℕ) (hi : i < S) (hj : j < L) (ht : t < 6) :
    (sphereIndices S L)[6 * (i * L + j) + t]? = (cellIndices ((L : ℤ) + 1) i j)[t]? := by
  have e : 6 * (i * L + j) + t = i * (L * 6) + (j * 6 + t) := by ring
  rw [sphereIndices_eq, e,
    getElem?_flatMap_range _ (L * 6)
      (fun i => length_flatMap_range _ 6 (fun j => length_cellIndices _ i j) L)
      S i (j * 6 + t) hi (by omega)]
  exact getElem?_flatMap_range _ 6 (fun j => length_cellIndices _ i j) L j t hj ht

theorem toUInt_natCast (n : ℕ) (h : n < 4294967296) : toUInt (n : ℤ) = n := by
  unfold toUInt
  omega

theorem toGLsizei_small (n : ℕ) (h : n ≤ 2147483647) : toGLsizei n = (n : ℤ) := by
  unfold toGLsizei
  omega

/-- The corner indices of cell `(i, j)` as natural numbers. -/
theorem cellIndices_eq (L i j : ℕ) (h : (i + 1) * (L + 1) + (j + 1) < 4294967296) :
    cellIndices ((L : ℤ) + 1) i j
      = [i * (L + 1) + j, (i + 1) * (L + 1) + j, (i + 1) * (L + 1) + (j + 1),
         i * (L + 1) + j, (i + 1) * (L + 1) + (j + 1), i * (L + 1) + (j + 1)] := by
  have hle : i * (L + 1) ≤ (i + 1) * (L + 1) := Nat.mul_le_mul_right _ (by omega)
  have ea : (i : ℤ) * ((L : ℤ) + 1) + j = ((i * (L + 1) + j : ℕ) : ℤ) := by push_cast; ring
  have eb : ((i : ℤ) + 1) * ((L : ℤ) + 1) + j = (((i + 1) * (L + 1) + j : ℕ) : ℤ) := by
    push_cast; ring
  have ec : ((i : ℤ) + 1) * ((L : ℤ) + 1) + ((j : ℤ) + 1)
      = (((i + 1) * (L + 1) + (j + 1) : ℕ) : ℤ) := by push_cast; ring
  have ed : (i : ℤ) * ((L : ℤ) + 1) + ((j : ℤ) + 1) = ((i * (L + 1) + (j + 1) : ℕ) : ℤ) := by
    push_cast; ring
  unfold cellIndices
  simp only [ea, eb, ec, ed]
  rw [toUInt_natCast _ (by omega), toUInt_natCast _ (by omega), toUInt_natCast _ (by omega),
    toUInt_natCast _ (by omega)]

theorem corner_lt (S L i j : ℕ) (hi : i < S) (hj : j < L) :
    (i + 1) * (L + 1) + (j + 1) < (S + 1) * (L + 1) := by
  have h1 : (i + 1) * (L + 1) ≤ S * (L + 1) := Nat.mul_le_mul_right _ (by omega)
  have h2 : (S + 1) * (L + 1) = S * (L + 1) + (L + 1) := by ring
  omega

/-- When the argument of `reserve` fits an `int`, so does the largest value the
index loop computes, the corner index `(i + 1) * ring + (j + 1)`. -/
theorem corner_fits_int (S L i j : ℕ) (hfit : (S + 1) * (L + 1) * 8 ≤ 2147483647)
    (hi : i < S) (hj : j < L) :
    (((i : ℤ) + 1) * ((L : ℤ) + 1) + ((j : ℤ) + 1)) ≤ INT_MAX := by
  have hc := corner_lt S L i j hi hj
  have e : ((i : ℤ) + 1) * ((L : ℤ) + 1) + ((j : ℤ) + 1)
      = (((i + 1) * (L + 1) + (j + 1) : ℕ) : ℤ) := by push_cast; ring
  rw [e]
  unfold INT_MAX
  omega

theorem mem_sphereIndices_lt (S L k : ℕ) (hfit : (S + 1) * (L + 1) * 8 ≤ 2147483647)
    (hk : k ∈ sphereIndices S L) : k < (S + 1) * (L + 1) := by
  rw [sphereIndices_eq] at hk
  obtain ⟨i, hi, hk⟩ := List.mem_flatMap.mp hk
  obtain ⟨j, hj, hk⟩ := List.mem_flatMap.mp hk
  rw [List.mem_range] at hi hj
  have hc := corner_lt S L i j hi hj
  have hle : i * (L + 1) ≤ (i + 1) * (L + 1) := Nat.mul_le_mul_right _ (by omega)
  rw [cellIndices_eq L i j (by omega)] at hk
  simp only [List.mem_cons, List.mem_singleton, List.not_mem_nil, or_false] at hk
  omega

/-! ## Rounding to binary32 is monotone and fixes 0 and 1 -/

theorem rne_bounds (x : ℚ) : ⌊x⌋ ≤ rne x ∧ rne x ≤ ⌊x⌋ + 1 := by
  unfold rne
  simp only
  split_ifs <;> omega

theorem rne_intCast (n : ℤ) : rne (n : ℚ) = n := by
  unfold rne
  simp

theorem rne_mono {x y : ℚ} (h : x ≤ y) : rne x ≤ rne y := by
  rcases (Int.floor_mono h).lt_or_eq with hlt | heq
  · have h1 := (rne_bounds x).2
    have h2 := (rne_bounds y).1
    omega
  · unfold rne
    simp only
    rw [← heq]
    split_ifs <;> first | omega | (exfalso; linarith)

theorem ulp_pos (q : ℚ) : 0 < ulp q := by
  unfold ulp
  positivity

theorem roundQ_zero : roundQ 0 = 0 := by
  unfold roundQ
  simp [rne]

theorem roundQ_nonneg {q : ℚ} (h : 0 ≤ q) : 0 ≤ roundQ q := by
  unfold roundQ
  have h0 : (0 : ℚ) ≤ q / ulp q := div_nonneg h (ulp_pos q).le
  have h1 : rne ((0 : ℤ) : ℚ) ≤ rne (q / ulp q) := rne_mono (by simpa using h0)
  rw [rne_intCast] at h1
  exact mul_nonneg (by exact_mod_cast h1) (ulp_pos q).le

theorem two_zpow_div_ulp (q : ℚ) (k : ℤ) :
    (2 : ℚ) ^ (binade q + k) / ulp q = (2 : ℚ) ^ (k + 23) := by
  unfold ulp
  rw [← zpow_sub₀ (by norm_num : (2 : ℚ) ≠ 0)]
  congr 1
  ring

theorem two_zpow_mul_ulp (q : ℚ) (k : ℕ) :
    (((2 : ℤ) ^ k : ℤ) : ℚ) * ulp q = (2 : ℚ) ^ (binade q + ((k : ℤ) - 23)) := by
  unfold ulp
  push_cast
  rw [← zpow_natCast, ← zpow_add₀ (by norm_num : (2 : ℚ) ≠ 0)]
  congr 1
  ring

/-- A positive value rounds to at most the top of its binade. -/
theorem roundQ_le_top {x : ℚ} (hx : 0 < x) : roundQ x ≤ (2 : ℚ) ^ (binade x + 1) := by
  have hlt : x < (2 : ℚ) ^ (Int.log 2 x + 1) := by
    have := Int.lt_zpow_succ_log_self (b := 2) (by norm_num) x
    simpa using this
  have hb : Int.log 2 x ≤ binade x := by
    unfold binade
    rw [abs_of_pos hx]
    exact le_max_left _ _
  have hle : x ≤ (2 : ℚ) ^ (binade x + 1) :=
    hlt.le.trans (zpow_le_zpow_right₀ (by norm_num) (by omega))
  have hdiv : x / ulp x ≤ (((2 : ℤ) ^ 24 : ℤ) : ℚ) := by
    have h1 : x / ulp x ≤ (2 : ℚ) ^ (binade x + 1) / ulp x :=
      div_le_div_of_nonneg_right hle (ulp_pos x).le
    rw [two_zpow_div_ulp] at h1
    have e : (2 : ℚ) ^ ((1 : ℤ) + 23) = (((2 : ℤ) ^ 24 : ℤ) : ℚ) := by norm_num
    rw [e] at h1
    exact h1
  have hr : rne (x / ulp x) ≤ (2 : ℤ) ^ 24 := by
    have := rne_mono hdiv
    rwa [rne_intCast] at this
  unfold roundQ
  calc (rne (x / ulp x) : ℚ) * ulp x ≤ (((2 : ℤ) ^ 24 : ℤ) : ℚ) * ulp x :=
        mul_le_mul_of_nonneg_right (by exact_mod_cast hr) (ulp_pos x).le
    _ = (2 : ℚ) ^ (binade x + 1) := by
        rw [two_zpow_mul_ulp]
        congr 1

/-- A value in a normal binade rounds to at least the bottom of its binade. -/
theorem bot_le_roundQ {y : ℚ} (hy : 0 < y) (hb : binade y = Int.log 2 y) :
    (2 : ℚ) ^ binade y ≤ roundQ y := by
  have hle : (2 : ℚ) ^ binade y ≤ y := by
    rw [hb]
    have := Int.zpow_log_le_self (b := 2) (by norm_num) hy
    simpa using this
  have hdiv : (((2 : ℤ) ^ 23 : ℤ) : ℚ) ≤ y / ulp y := by
    have h1 : (2 : ℚ) ^ (binade y + 0) / ulp y ≤ y / ulp y := by
      rw [add_zero]
      exact div_le_div_of_nonneg_right hle (ulp_pos y).le
    rw [two_zpow_div_ulp] at h1
    have e : (2 : ℚ) ^ ((0 : ℤ) + 23) = (((2 : ℤ) ^ 23 : ℤ) : ℚ) := by norm_num
    rw [e] at h1
    exact h1
  have hr : (2 : ℤ) ^ 23 ≤ rne (y / ulp y) := by
    have := rne_mono hdiv
    rwa [rne_intCast] at this
  unfold roundQ
  calc (2 : ℚ) ^ binade y = (((2 : ℤ) ^ 23 : ℤ) : ℚ) * ulp y := by
        rw [two_zpow_mul_ulp]
        congr 1
        norm_num
    _ ≤ (rne (y / ulp y) : ℚ) * ulp y :=
        mul_le_mul_of_nonneg_right (by exact_mod_cast hr) (ulp_pos y).le

theorem binade_mono {x y : ℚ} (hx : 0 < x) (h : x ≤ y) : binade x ≤ binade y := by
  unfold binade
  rw [abs_of_pos hx, abs_of_pos (hx.trans_le h)]
  exact max_le_max (Int.log_mono_right hx h) le_rfl

/-- Rounding is monotone on the non-negative rationals. -/
theorem roundQ_mono {x y : ℚ} (hx : 0 ≤ x) (h : x ≤ y) : roundQ x ≤ roundQ y := by
  rcases hx.lt_or_eq with hpos | hzero
  · have hy : 0 < y := hpos.trans_le h
    rcases (binade_mono hpos h).lt_or_eq with hlt | heq
    · have hby : binade y = Int.log 2 y := by
        have hge : (-126 : ℤ) ≤ binade x := by unfold binade; exact le_max_right _ _
        unfold binade at hlt ⊢
        rw [abs_of_pos hy] at hlt ⊢
        exact max_eq_left (by
          by_contra hc
          rw [max_eq_right (by omega)] at hlt
          unfold binade at hge
          omega)
      calc roundQ x ≤ (2 : ℚ) ^ (binade x + 1) := roundQ_le_top hpos
        _ ≤ (2 : ℚ) ^ binade y := zpow_le_zpow_right₀ (by norm_num) (by omega)
        _ ≤ roundQ y := bot_le_roundQ hy hby
    · have hu : ulp x = ulp y := by unfold ulp; rw [heq]
      unfold roundQ
      rw [hu]
      have : rne (x / ulp y) ≤ rne (y / ulp y) :=
        rne_mono (div_le_div_of_nonneg_right h (ulp_pos y).le)
      exact mul_le_mul_of_nonneg_right (by exact_mod_cast this) (ulp_pos y).le
  · rw [← hzero, roundQ_zero]
    exact roundQ_nonneg (hx.trans h)

theorem roundQ_one : roundQ 1 = 1 := by decide!

/-- Values below `2^32` stay finite when rounded. -/
theorem roundQ_le_two_pow_32 {x : ℚ} (hx : 0 ≤ x) (h : x < 4294967296) :
    roundQ x ≤ 4294967296 := by
  rcases hx.lt_or_eq with hpos | hzero
  · have hlog : Int.log 2 x < 32 := by
      rw [← Int.lt_zpow_iff_log_lt (by norm_num) hpos]
      norm_num
      exact h
    have hb : binade x + 1 ≤ 32 := by
      unfold binade
      rw [abs_of_pos hpos]
      have : max (Int.log 2 x) (-126) ≤ 31 := max_le (by omega) (by norm_num)
      omega
    calc roundQ x ≤ (2 : ℚ) ^ (binade x + 1) := roundQ_le_top hpos
      _ ≤ (2 : ℚ) ^ (32 : ℤ) := zpow_le_zpow_right₀ (by norm_num) hb
      _ = 4294967296 := by norm_num
  · rw [← hzero, roundQ_zero]
    norm_num

theorem round_eq_fin {x : ℚ} (hx : 0 ≤ x) (h : x < 4294967296) :
    F32.round x = F32.fin (roundQ x) := by
  unfold F32.round
  simp only
  rw [if_neg]
  rw [abs_of_nonneg (roundQ_nonneg hx)]
  have := roundQ_le_two_pow_32 hx h
  have e : (4294967296 : ℚ) < 2 ^ 128 := by norm_num
  exact not_le.mpr (this.trans_lt e)

/-- A value of the unit interval rounds to a finite value of the unit interval. -/
theorem round_unit {x : ℚ} (h0 : 0 ≤ x) (h1 : x ≤ 1) :
    F32.round x = F32.fin (roundQ x) ∧ 0 ≤ roundQ x ∧ roundQ x ≤ 1 := by
  refine ⟨round_eq_fin h0 (by linarith), roundQ_nonneg h0, ?_⟩
  have := roundQ_mono h0 h1
  rwa [roundQ_one] at this

/-- The conversion of a natural number below `2^32` is finite, and monotone. -/
theorem ofInt_natCast (n : ℕ) (h : n < 4294967296) :
    F32.ofInt (n : ℤ) = F32.fin (roundQ (n : ℚ)) := by
  unfold F32.ofInt
  have e : (((n : ℤ)) : ℚ) = (n : ℚ) := by norm_cast
  rw [e]
  exact round_eq_fin (by positivity) (by exact_mod_cast h)

/-- The quotient `float(i) / float(n)` for `0 ≤ i ≤ n`, `1 ≤ n`, lies in the unit interval. -/
theorem div_ofInt_unit (i n : ℕ) (hn : 1 ≤ n) (hi : i ≤ n) (h : n < 4294967296) :
    F32.div (F32.ofInt (i : ℤ)) (F32.ofInt (n : ℤ))
        = F32.fin (roundQ (roundQ (i : ℚ) / roundQ (n : ℚ)))
      ∧ 0 ≤ roundQ (roundQ (i : ℚ) / roundQ (n : ℚ))
      ∧ roundQ (roundQ (i : ℚ) / roundQ (n : ℚ)) ≤ 1 := by
  rw [ofInt_natCast i (by omega), ofInt_natCast n h]
  have hi0 : (0 : ℚ) ≤ roundQ (i : ℚ) := roundQ_nonneg (by positivity)
  have hin : roundQ (i : ℚ) ≤ roundQ (n : ℚ) := roundQ_mono (by positivity) (by exact_mod_cast hi)
  have hn1 : (1 : ℚ) ≤ roundQ (n : ℚ) := by
    have := roundQ_mono (x := 1) (y := (n : ℚ)) (by norm_num) (by exact_mod_cast hn)
    rwa [roundQ_one] at this
  have hne : roundQ (n : ℚ) ≠ 0 := by linarith
  have e : F32.div (F32.fin (roundQ (i : ℚ))) (F32.fin (roundQ (n : ℚ)))
      = F32.round (roundQ (i : ℚ) / roundQ (n : ℚ)) := by
    simp only [F32.div, hne, if_false]
  rw [e]
  exact round_unit (div_nonneg hi0 (by linarith)) ((div_le_one (by linarith)).mpr hin)

theorem lit_one : F32.lit 1 = F32.fin 1 := by decide!

/-- The difference `1.0f - t` for `t` in the unit interval lies in the unit interval. -/
theorem one_sub_unit (u : ℚ) (h0 : 0 ≤ u) (h1 : u ≤ 1) :
    F32.sub (F32.lit 1) (F32.fin u) = F32.fin (roundQ (1 - u))
      ∧ 0 ≤ roundQ (1 - u) ∧ roundQ (1 - u) ≤ 1 := by
  rw [lit_one]
  show F32.round (1 + -u) = _ ∧ _
  rw [← sub_eq_add_neg]
  exact round_unit (by linarith) (by linarith)

/-! ## Rounding error -/

theorem rne_err (x : ℚ) : |(rne x : ℚ) - x| ≤ 1 / 2 := by
  have h1 := Int.floor_le x
  have h2 := Int.lt_floor_add_one x
  unfold rne
  simp only
  rw [abs_le]
  split_ifs <;> constructor <;> push_cast <;> linarith

theorem roundQ_err (q : ℚ) : |roundQ q - q| ≤ ulp q / 2 := by
  have hu := ulp_pos q
  have e : roundQ q - q = ((rne (q / ulp q) : ℚ) - q / ulp q) * ulp q := by
    unfold roundQ
    field_simp
  rw [e, abs_mul, abs_of_pos hu]
  have := rne_err (q / ulp q)
  nlinarith

theorem binade_unit {q : ℚ} (h0 : 0 ≤ q) (h1 : q ≤ 1) : binade q ≤ 0 := by
  unfold binade
  rw [abs_of_nonneg h0]
  refine max_le ?_ (by norm_num)
  rcases h0.lt_or_eq with hpos | hzero
  · have : Int.log 2 q < 1 := by
      rw [← Int.lt_zpow_iff_log_lt (by norm_num) hpos]
      norm_num
      linarith
    omega
  · rw [← hzero, Int.log_of_right_le_zero 2 (le_refl (0 : ℚ))]

/-- A value of the unit interval is rounded with an error of at most `2^-24`. -/
theorem roundQ_unit_err {q : ℚ} (h0 : 0 ≤ q) (h1 : q ≤ 1) : |roundQ q - q| ≤ 1 / 16777216 := by
  have hb := binade_unit h0 h1
  have hu : ulp q ≤ 1 / 8388608 := by
    unfold ulp
    calc (2 : ℚ) ^ (binade q - 23) ≤ (2 : ℚ) ^ (-23 : ℤ) :=
          zpow_le_zpow_right₀ (by norm_num) (by omega)
      _ = 1 / 8388608 := by norm_num
  have := roundQ_err q
  linarith

/-- A value of at least 1 is rounded with a relative error of at most `2^-24`. -/
theorem roundQ_rel_err {q : ℚ} (h1 : 1 ≤ q) : |roundQ q - q| ≤ q / 16777216 := by
  have hpos : 0 < q := by linarith
  have hlog : 0 ≤ Int.log 2 q := by
    rw [← Int.zpow_le_iff_le_log (by norm_num) hpos]
    simpa using h1
  have hb : binade q = Int.log 2 q := by
    unfold binade
    rw [abs_of_pos hpos]
    exact max_eq_left (by omega)
  have hle : (2 : ℚ) ^ Int.log 2 q ≤ q := by
    have := Int.zpow_log_le_self (b := 2) (by norm_num) hpos
    simpa using this
  have hu : ulp q ≤ q / 8388608 := by
    unfold ulp
    rw [hb, zpow_sub₀ (by norm_num : (2 : ℚ) ≠ 0)]
    have e : (2 : ℚ) ^ (23 : ℤ) = 8388608 := by norm_num
    rw [e]
    exact div_le_div_of_nonneg_right hle (by norm_num)
  have := roundQ_err q
  linarith

theorem roundQ_natCast_err (n : ℕ) : |roundQ (n : ℚ) - n| ≤ (n : ℚ) / 16777216 := by
  rcases Nat.eq_zero_or_pos n with h | h
  · subst h
    simp [roundQ_zero]
  · exact roundQ_rel_err (by exact_mod_cast h)

/-- The float quotient of two converted integers `j ≤ n`, `1 ≤ n`, is within
`5 * 2^-24` of the exact quotient. -/
theorem quotient_err (j n : ℕ) (hn : 1 ≤ n) (hj : j ≤ n) :
    |roundQ (roundQ (j : ℚ) / roundQ (n : ℚ)) - (j : ℚ) / n| ≤ 5 / 16777216 := by
  have hn1 : (1 : ℚ) ≤ n := by exact_mod_cast hn
  have hjn : (j : ℚ) ≤ n := by exact_mod_cast hj
  have hj0 : (0 : ℚ) ≤ j := by positivity
  have ha := abs_le.mp (roundQ_natCast_err j)
  have hb := abs_le.mp (roundQ_natCast_err n)
  have ha0 : (0 : ℚ) ≤ roundQ (j : ℚ) := roundQ_nonneg hj0
  have hab : roundQ (j : ℚ) ≤ roundQ (n : ℚ) := roundQ_mono hj0 hjn
  set a := roundQ (j : ℚ) with ha_def
  set b := roundQ (n : ℚ) with hb_def
  have hbpos : 0 < b := by linarith [hb.1]
  have hq0 : 0 ≤ a / b := div_nonneg ha0 hbpos.le
  have hq1 : a / b ≤ 1 := (div_le_one hbpos).mpr hab
  have h1 := abs_le.mp (roundQ_unit_err hq0 hq1)
  have h2 : |a / b - (j : ℚ) / n| ≤ 4 / 16777216 := by
    rw [div_sub_div _ _ hbpos.ne' (by linarith : (n : ℚ) ≠ 0), abs_div,
      abs_of_pos (mul_pos hbpos (by linarith : (0 : ℚ) < n)),
      div_le_iff₀ (mul_pos hbpos (by linarith : (0 : ℚ) < n)), abs_le]
    constructor <;> nlinarith [mul_nonneg hj0 (by linarith : (0 : ℚ) ≤ n)]
  have h2' := abs_le.mp h2
  rw [abs_le]
  constructor <;> linarith [h1.1, h1.2, h2'.1, h2'.2]

/-! ## Claims about `makeSphere` -/

theorem sphereBuild_indexCount (lm : MathLib) (g : GLNames) (S L : ℕ)
    (hfit : (S + 1) * (L + 1) * 8 ≤ 2147483647) :
    (sphereBuild lm g S L).mesh.indexCount = ((S * L * 6 : ℕ) : ℤ) := by
  have h1 : S * L ≤ (S + 1) * (L + 1) := Nat.mul_le_mul (by omega) (by omega)
  show toGLsizei (sphereIndices S L).length = _
  rw [length_sphereIndices]
  exact toGLsizei_small _ (by omega)

/-- C1 (amended): for every stack count `S ≥ 1` and slice count `L ≥ 1` whose
buffer size `(S+1)*(L+1)*8` fits an `int`, `makeSphere(S, L)` returns, having
built exactly `(S+1)*(L+1)` vertices of 8 floats and exactly `S*L*6` indices,
uploaded both buffers, and stored `indexCount = S*L*6` in the handle. -/
theorem makeSphere_counts (lm : MathLib) (g : GLNames) (S L : ℕ) (_hS : 1 ≤ S) (_hL : 1 ≤ L)
    (hfit : (S + 1) * (L + 1) * 8 ≤ 2147483647) :
    ∃ r, makeSphere lm g S L = .ok r
      ∧ r.v.length = (S + 1) * (L + 1) * 8
      ∧ r.idx.length = S * L * 6
      ∧ r.mesh.indexCount = ((S * L * 6 : ℕ) : ℤ)
      ∧ GLCall.bufferDataFloat .arrayBuffer ((S + 1) * (L + 1) * 8 * 4) r.v ∈ r.calls
      ∧ GLCall.bufferDataUInt .elementArrayBuffer (S * L * 6 * 4) r.idx ∈ r.calls := by
  refine ⟨sphereBuild lm g S L, makeSphere_fits lm g S L hfit, length_sphereVertices lm S L,
    length_sphereIndices S L, sphereBuild_indexCount lm g S L hfit, ?_, ?_⟩
  · rw [← length_sphereVertices lm S L]
    simp [sphereBuild, buildIndexedMesh]
  · rw [← length_sphereIndices S L]
    simp [sphereBuild, buildIndexedMesh]

/-- C1 witness: `makeSphere(4, 4)` builds 25 vertices (200 floats) and 96 indices. -/
theorem makeSphere_counts_witness :
    ∃ r, makeSphere identityMath ⟨1, 2, 3⟩ 4 4 = .ok r
      ∧ r.v.length = 200 ∧ r.idx.length = 96 ∧ r.mesh.indexCount = 96 := by
  obtain ⟨r, h1, h2, h3, h4, _⟩ :=
    makeSphere_counts identityMath ⟨1, 2, 3⟩ 4 4 (by norm_num) (by norm_num) (by norm_num)
  exact ⟨r, h1, h2, h3, h4⟩

/-- C1 counterexample: for `S = L = 16384` the argument of `v.reserve`,
`16385 * 16385 * 8`, exceeds `INT_MAX`; the call faults and builds no buffer
of the claimed sizes. -/
theorem makeSphere_counts_overflow :
    makeSphere identityMath ⟨1, 2, 3⟩ 16384 16384 = .error .signedOverflow
      ∧ ¬ ∃ r, makeSphere identityMath ⟨1, 2, 3⟩ 16384 16384 = .ok r
          ∧ r.v.length = (16384 + 1) * (16384 + 1) * 8 ∧ r.idx.length = 16384 * 16384 * 6 := by
  have h : makeSphere identityMath ⟨1, 2, 3⟩ 16384 16384 = .error .signedOverflow :=
    makeSphere_overflow identityMath ⟨1, 2, 3⟩ 16384 16384 (by norm_num)
  refine ⟨h, ?_⟩
  rintro ⟨r, hr, _⟩
  rw [h] at hr
  cases hr

/-- C2: for every `S ≥ 1` and `L ≥ 1`, whenever `makeSphere(S, L)` returns, the
vertex buffer holds `(S+1)*(L+1)` vertices and every index emitted is strictly
less than that vertex count; and it does return when the sizes fit an `int`. -/
theorem makeSphere_indices_lt_vertexCount (lm : MathLib) (g : GLNames) (S L : ℕ)
    (_hS : 1 ≤ S) (_hL : 1 ≤ L) :
    (∀ r, makeSphere lm g S L = .ok r →
        r.v.length = (S + 1) * (L + 1) * 8 ∧ ∀ k ∈ r.idx, k < (S + 1) * (L + 1))
      ∧ ((S + 1) * (L + 1) * 8 ≤ 2147483647 → ∃ r, makeSphere lm g S L = .ok r) := by
  constructor
  · intro r hr
    obtain ⟨hfit, rfl⟩ := (makeSphere_ok_iff lm g S L r).mp hr
    exact ⟨length_sphereVertices lm S L, fun k hk => mem_sphereIndices_lt S L k hfit hk⟩
  · intro hfit
    exact ⟨_, makeSphere_fits lm g S L hfit⟩

/-- C2 witness: `makeSphere(4, 4)` returns and all its indices are below 25. -/
theorem makeSphere_indices_lt_vertexCount_witness :
    ∃ r, makeSphere identityMath ⟨1, 2, 3⟩ 4 4 = .ok r
      ∧ r.v.length = 200 ∧ ∀ k ∈ r.idx, k < 25 := by
  have h := makeSphere_indices_lt_vertexCount identityMath ⟨1, 2, 3⟩ 4 4 (by norm_num)
    (by norm_num)
  obtain ⟨r, hr⟩ := h.2 (by norm_num)
  exact ⟨r, hr, (h.1 r hr).1, (h.1 r hr).2⟩

/-- C5 (amended): for every `S ≥ 1`, `L ≥ 1` whose buffer size `(S+1)*(L+1)*8`
fits an `int`, `makeSphere(S, L)` returns an index list of exactly `6*S*L`
entries which, for every cell `(i, j)` with `i < S`, `j < L`, holds at
positions `6*(i*L+j) .. 6*(i*L+j)+5` the triangles `(a, b, c)` and `(a, c, d)`
of the corners `(i,j)`, `(i+1,j)`, `(i+1,j+1)`, `(i,j+1)`; grid point `(i, j)`
has index `i*(L+1)+j`, that is, its eight floats start at `8*(i*(L+1)+j)`. -/
theorem makeSphere_cell_triangles (lm : MathLib) (g : GLNames) (S L : ℕ)
    (_hS : 1 ≤ S) (_hL : 1 ≤ L) (hfit : (S + 1) * (L + 1) * 8 ≤ 2147483647) :
    ∃ r, makeSphere lm g S L = .ok r
      ∧ r.idx.length = 6 * (S * L)
      ∧ (∀ i j, i < S → j < L →
          r.idx[6 * (i * L + j) + 0]? = some (i * (L + 1) + j)
          ∧ r.idx[6 * (i * L + j) + 1]? = some ((i + 1) * (L + 1) + j)
          ∧ r.idx[6 * (i * L + j) + 2]? = some ((i + 1) * (L + 1) + (j + 1))
          ∧ r.idx[6 * (i * L + j) + 3]? = some (i * (L + 1) + j)
          ∧ r.idx[6 * (i * L + j) + 4]? = some ((i + 1) * (L + 1) + (j + 1))
          ∧ r.idx[6 * (i * L + j) + 5]? = some (i * (L + 1) + (j + 1)))
      ∧ (∀ i j t, i ≤ S → j ≤ L → t < 8 →
          r.v[8 * (i * (L + 1) + j) + t]? = (vertexAt lm S L i j)[t]?) := by
  refine ⟨sphereBuild lm g S L, makeSphere_fits lm g S L hfit, ?_, ?_, ?_⟩
  · show (sphereIndices S L).length = _
    rw [length_sphereIndices]
    ring
  · intro i j hi hj
    have hc := corner_lt S L i j hi hj
    have hcell := cellIndices_eq L i j (by omega)
    show (sphereIndices S L)[_]? = _ ∧ (sphereIndices S L)[_]? = _
      ∧ (sphereIndices S L)[_]? = _ ∧ (sphereIndices S L)[_]? = _
      ∧ (sphereIndices S L)[_]? = _ ∧ (sphereIndices S L)[_]? = _
    rw [getElem?_sphereIndices S L i j 0 hi hj (by norm_num),
      getElem?_sphereIndices S L i j 1 hi hj (by norm_num),
      getElem?_sphereIndices S L i j 2 hi hj (by norm_num),
      getElem?_sphereIndices S L i j 3 hi hj (by norm_num),
      getElem?_sphereIndices S L i j 4 hi hj (by norm_num),
      getElem?_sphereIndices S L i j 5 hi hj (by norm_num), hcell]
    simp
  · intro i j t hi hj ht
    exact getElem?_sphereVertices lm S L i j t hi hj ht

/-- C5 witness: cell `(1, 2)` of `makeSphere(4, 4)` occupies positions 36..41
of the index list with the triangles `(7, 12, 13)` and `(7, 13, 8)`. -/
theorem makeSphere_cell_triangles_witness :
    ∃ r, makeSphere identityMath ⟨1, 2, 3⟩ 4 4 = .ok r
      ∧ r.idx.length = 96
      ∧ r.idx[36]? = some 7 ∧ r.idx[37]? = some 12 ∧ r.idx[38]? = some 13
      ∧ r.idx[39]? = some 7 ∧ r.idx[40]? = some 13 ∧ r.idx[41]? = some 8 := by
  obtain ⟨r, hr, hlen, hcell, _⟩ :=
    makeSphere_cell_triangles identityMath ⟨1, 2, 3⟩ 4 4 (by norm_num) (by norm_num)
      (by norm_num)
  obtain ⟨h0, h1, h2, h3, h4, h5⟩ := hcell 1 2 (by norm_num) (by norm_num)
  exact ⟨r, hr, hlen, h0, h1, h2, h3, h4, h5⟩

/-- C5 counterexample: for `S = 1`, `L = 134217727` the argument of
`v.reserve`, `2 * 134217728 * 8 = 2^31`, exceeds `INT_MAX`; the call faults
and there is no index list holding the triangles of cell `(0, 0)`. -/
theorem makeSphere_cell_triangles_overflow :
    makeSphere identityMath ⟨1, 2, 3⟩ 1 134217727 = .error .signedOverflow
      ∧ ¬ ∃ r, makeSphere identityMath ⟨1, 2, 3⟩ 1 134217727 = .ok r
          ∧ r.idx[0]? = some 0 ∧ r.idx[1]? = some 134217728 := by
  have h : makeSphere identityMath ⟨1, 2, 3⟩ 1 134217727 = .error .signedOverflow :=
    makeSphere_overflow identityMath ⟨1, 2, 3⟩ 1 134217727 (by norm_num)
  refine ⟨h, ?_⟩
  rintro ⟨r, hr, _⟩
  rw [h] at hr
  cases hr

/-- C8: for every `S ≥ 1` and `L ≥ 1`, whenever `makeSphere(S, L)` returns,
the texture coordinate stored for every vertex `(i, j)`, `i ≤ S`, `j ≤ L`, is
the pair of floats `(float(j) / float(L), 1.0f - float(i) / float(S))`; both
are finite, inside `[0, 1]`, and within `2^-21` of the exact values `j/L` and
`1 - i/S`; and it does return when the sizes fit an `int`. -/
theorem makeSphere_uv_unit (lm : MathLib) (g : GLNames) (S L : ℕ) (hS : 1 ≤ S) (hL : 1 ≤ L) :
    (∀ r, makeSphere lm g S L = .ok r → ∀ i j, i ≤ S → j ≤ L →
        ∃ u v : ℚ,
          r.v[8 * (i * (L + 1) + j) + 6]? = some (F32.fin u)
          ∧ r.v[8 * (i * (L + 1) + j) + 7]? = some (F32.fin v)
          ∧ F32.div (F32.ofInt j) (F32.ofInt L) = F32.fin u
          ∧ F32.sub (F32.lit 1) (F32.div (F32.ofInt i) (F32.ofInt S)) = F32.fin v
          ∧ (0 ≤ u ∧ u ≤ 1) ∧ (0 ≤ v ∧ v ≤ 1)
          ∧ |u - (j : ℚ) / L| ≤ 1 / 2097152 ∧ |v - (1 - (i : ℚ) / S)| ≤ 1 / 2097152)
      ∧ ((S + 1) * (L + 1) * 8 ≤ 2147483647 → ∃ r, makeSphere lm g S L = .ok r) := by
  constructor
  · intro r hr i j hi hj
    obtain ⟨hfit, rfl⟩ := (makeSphere_ok_iff lm g S L r).mp hr
    have h1 : S + 1 ≤ (S + 1) * (L + 1) := Nat.le_mul_of_pos_right _ (by omega)
    have h2 : L + 1 ≤ (S + 1) * (L + 1) := Nat.le_mul_of_pos_left _ (by omega)
    obtain ⟨hu, hu0, hu1⟩ := div_ofInt_unit j L hL hj (by omega)
    obtain ⟨ht, ht0, ht1⟩ := div_ofInt_unit i S hS hi (by omega)
    obtain ⟨hv, hv0, hv1⟩ := one_sub_unit _ ht0 ht1
    have eu := abs_le.mp (quotient_err j L hL hj)
    have et := abs_le.mp (quotient_err i S hS hi)
    have ev := abs_le.mp (roundQ_unit_err (sub_nonneg.mpr ht1) (by linarith))
    refine ⟨_, _, ?_, ?_, hu, by rw [ht]; exact hv, ⟨hu0, hu1⟩, ⟨hv0, hv1⟩, ?_, ?_⟩
    · show (sphereVertices lm S L)[_]? = _
      rw [getElem?_sphereVertices lm S L i j 6 hi hj (by norm_num), ← hu]
      rfl
    · show (sphereVertices lm S L)[_]? = _
      rw [getElem?_sphereVertices lm S L i j 7 hi hj (by norm_num), ← hv, ← ht]
      rfl
    · rw [abs_le]
      constructor <;> linarith [eu.1, eu.2]
    · rw [abs_le]
      constructor <;> linarith [et.1, et.2, ev.1, ev.2]
  · intro hfit
    exact ⟨_, makeSphere_fits lm g S L hfit⟩

/-- C8 witness: vertex `(1, 3)` of `makeSphere(4, 4)` has a texture coordinate
inside the unit square. -/
theorem makeSphere_uv_unit_witness :
    ∃ r, makeSphere identityMath ⟨1, 2, 3⟩ 4 4 = .ok r
      ∧ ∃ u v : ℚ, r.v[70]? = some (F32.fin u) ∧ r.v[71]? = some (F32.fin v)
          ∧ (0 ≤ u ∧ u ≤ 1) ∧ (0 ≤ v ∧ v ≤ 1) := by
  have h := makeSphere_uv_unit identityMath ⟨1, 2, 3⟩ 4 4 (by norm_num) (by norm_num)
  obtain ⟨r, hr⟩ := h.2 (by norm_num)
  obtain ⟨u, v, h6, h7, _, _, hu, hv, _⟩ := h.1 r hr 1 3 (by norm_num) (by norm_num)
  exact ⟨r, hr, u, v, h6, h7, hu, hv⟩

/-! ## Zero stacks or slices -/

theorem zero_div_zero : F32.div (F32.ofInt 0) (F32.ofInt 0) = F32.nan := by decide!

theorem sub_nan (a : F32) : F32.sub a F32.nan = F32.nan := by
  cases a <;> rfl

theorem sphereIndices_zero_left (L : ℕ) : sphereIndices 0 L = [] := by
  have := sphereIndices_eq 0 L
  simpa using this

theorem sphereIndices_zero_right (S : ℕ) : sphereIndices S 0 = [] := by
  have h := length_sphereIndices S 0
  rw [Nat.mul_zero, Nat.zero_mul] at h
  have := List.length_eq_zero.mp h
  simpa using this

theorem zero_stacks_build (lm : MathLib) (g : GLNames) (L : ℕ)
    (hfit : (L + 1) * 8 ≤ 2147483647) :
    makeSphere lm g 0 L = .ok (sphereBuild lm g 0 L)
      ∧ (sphereBuild lm g 0 L).v.length = (L + 1) * 8
      ∧ (sphereBuild lm g 0 L).idx = []
      ∧ (sphereBuild lm g 0 L).mesh.indexCount = 0
      ∧ ∀ j, j ≤ L → (sphereBuild lm g 0 L).v[8 * j + 7]? = some F32.nan := by
  have hfit2 : (0 + 1) * (L + 1) * 8 ≤ 2147483647 := by omega
  refine ⟨?_, ?_, ?_, ?_, ?_⟩
  · have := makeSphere_fits lm g 0 L hfit2
    simpa using this
  · have := length_sphereVertices lm 0 L
    simpa [sphereBuild] using this
  · have := sphereIndices_zero_left L
    simpa [sphereBuild] using this
  · have := sphereBuild_indexCount lm g 0 L hfit2
    simpa using this
  · intro j hj
    have := getElem?_sphereVertices lm 0 L 0 j 7 (le_refl 0) hj (by norm_num)
    simp only [Nat.zero_mul, Nat.zero_add, Nat.cast_zero] at this
    show (sphereVertices lm ((0 : ℕ) : ℤ) L)[8 * j + 7]? = _
    rw [Nat.cast_zero, this]
    show some (F32.sub (F32.lit 1) (F32.div (F32.ofInt 0) (F32.ofInt 0))) = _
    rw [zero_div_zero, sub_nan]

theorem zero_slices_build (lm : MathLib) (g : GLNames) (S : ℕ)
    (hfit : (S + 1) * 8 ≤ 2147483647) :
    makeSphere lm g S 0 = .ok (sphereBuild lm g S 0)
      ∧ (sphereBuild lm g S 0).v.length = (S + 1) * 8
      ∧ (sphereBuild lm g S 0).idx = []
      ∧ (sphereBuild lm g S 0).mesh.indexCount = 0
      ∧ ∀ i, i ≤ S → (sphereBuild lm g S 0).v[8 * i + 6]? = some F32.nan := by
  have hfit2 : (S + 1) * (0 + 1) * 8 ≤ 2147483647 := by omega
  refine ⟨?_, ?_, ?_, ?_, ?_⟩
  · have := makeSphere_fits lm g S 0 hfit2
    simpa using this
  · have := length_sphereVertices lm S 0
    simpa [sphereBuild] using this
  · have := sphereIndices_zero_right S
    simpa [sphereBuild] using this
  · have := sphereBuild_indexCount lm g S 0 hfit2
    simpa using this
  · intro i hi
    have := getElem?_sphereVertices lm S 0 i 0 6 hi (le_refl 0) (by norm_num)
    simp only [Nat.zero_add, Nat.add_zero, Nat.mul_one, Nat.cast_zero] at this
    show (sphereVertices lm S ((0 : ℕ) : ℤ))[8 * i + 6]? = _
    rw [Nat.cast_zero, this]
    show some (F32.div (F32.ofInt 0) (F32.ofInt 0)) = _
    rw [zero_div_zero]

/-- C3 (amended): `makeSphere` has no guard for a zero count.  Called with
`stacks = 0` and `slices = n`, or with `stacks = n` and `slices = 0`, where
`(n+1)*8` fits an `int`, it returns normally with `n+1` vertices of 8 floats,
no index and `indexCount = 0`; the step fraction is evaluated as the float
division `0/0`, which is NaN, and reaches the buffer as the `uv.y` (zero
stacks) or `uv.x` (zero slices) component of every vertex. -/
theorem makeSphere_zero_unguarded (lm : MathLib) (g : GLNames) (n : ℕ)
    (hfit : (n + 1) * 8 ≤ 2147483647) :
    (∃ r, makeSphere lm g 0 n = .ok r ∧ r.v.length = (n + 1) * 8 ∧ r.idx = []
        ∧ r.mesh.indexCount = 0 ∧ ∀ j, j ≤ n → r.v[8 * j + 7]? = some F32.nan)
      ∧ (∃ r, makeSphere lm g n 0 = .ok r ∧ r.v.length = (n + 1) * 8 ∧ r.idx = []
        ∧ r.mesh.indexCount = 0 ∧ ∀ i, i ≤ n → r.v[8 * i + 6]? = some F32.nan)
      ∧ F32.div (F32.ofInt 0) (F32.ofInt 0) = F32.nan :=
  ⟨⟨_, zero_stacks_build lm g n hfit⟩, ⟨_, zero_slices_build lm g n hfit⟩, zero_div_zero⟩

/-- C3 witness: the amended statement at `n = 8`. -/
theorem makeSphere_zero_unguarded_witness :
    (∃ r, makeSphere identityMath ⟨1, 2, 3⟩ 0 8 = .ok r ∧ r.v.length = 72 ∧ r.idx = []
        ∧ r.mesh.indexCount = 0 ∧ ∀ j, j ≤ 8 → r.v[8 * j + 7]? = some F32.nan)
      ∧ (∃ r, makeSphere identityMath ⟨1, 2, 3⟩ 8 0 = .ok r ∧ r.v.length = 72 ∧ r.idx = []
        ∧ r.mesh.indexCount = 0 ∧ ∀ i, i ≤ 8 → r.v[8 * i + 6]? = some F32.nan) := by
  have h := makeSphere_zero_unguarded identityMath ⟨1, 2, 3⟩ 8 (by norm_num)
  exact ⟨h.1, h.2.1⟩

/-- C3 counterexample: `makeSphere(0, 8)` is not rejected and its mesh is not
empty: it returns a vertex buffer of 72 floats (9 vertices) whose entry 7, the
`uv.y` of the first vertex, is the NaN produced by dividing `0.0f` by `0.0f`. -/
theorem makeSphere_zero_stacks_not_rejected :
    ∃ r, makeSphere identityMath ⟨1, 2, 3⟩ 0 8 = .ok r
      ∧ r.v.length = 72 ∧ r.v ≠ []
      ∧ r.v[7]? = some (F32.sub (F32.lit 1) (F32.div (F32.ofInt 0) (F32.ofInt 0)))
      ∧ r.v[7]? = some F32.nan := by
  obtain ⟨h1, h2, _, _, h5⟩ := zero_stacks_build identityMath ⟨1, 2, 3⟩ 8 (by norm_num)
  have h7 := h5 0 (by norm_num)
  refine ⟨_, h1, h2, ?_, ?_, h7⟩
  · intro hnil
    rw [hnil] at h2
    simp at h2
  · rw [h7, zero_div_zero, sub_nan]

/-! ## Edge-triggered input -/

theorem pollAll_fired (k : Key) (ps : List (Key × ℤ)) :
    ∀ (prev : Key → ℤ) (n : ℕ),
      (((pollAll prev ps).1.filter (fun p => decide (p.1 = k))).map (fun p => p.2))[n]?
        = ((readingsFor k ps)[n]?).map
            (fun c => decide (c = GLFW_PRESS ∧ (prev k :: readingsFor k ps)[n]? ≠ some GLFW_PRESS)) := by
  induction ps with
  | nil => intro prev n; simp [pollAll, readingsFor]
  | cons p rest ih =>
    intro prev n
    obtain ⟨key, cur⟩ := p
    by_cases hk : key = k
    · subst hk
      have hup : (pressedOnce prev key cur).2 key = cur := by simp [pressedOnce]
      cases n with
      | zero => simp [pollAll, readingsFor, pressedOnce]
      | succ m =>
        have := ih (pressedOnce prev key cur).2 m
        rw [hup] at this
        simpa [pollAll, readingsFor] using this
    · have hup : (pressedOnce prev key cur).2 k = prev k := by
        simp [pressedOnce, Function.update_noteq (Ne.symm hk)]
      have := ih (pressedOnce prev key cur).2 n
      rw [hup] at this
      simpa [pollAll, readingsFor, hk] using this

theorem pollAll_cons_fst (prev : Key → ℤ) (key : Key) (cur : ℤ) (rest : List (Key × ℤ)) :
    (pollAll prev ((key, cur) :: rest)).1
      = (key, decide (cur = GLFW_PRESS ∧ prev key ≠ GLFW_PRESS))
          :: (pollAll (Function.update prev key cur) rest).1 := rfl

theorem pollAll_held (k : Key) (N : ℕ) :
    ∀ prev : Key → ℤ, prev k = GLFW_PRESS →
      (pollAll prev (List.replicate N (k, GLFW_PRESS))).1 = List.replicate N (k, false) := by
  induction N with
  | zero => intro prev _; rfl
  | succ N ih =>
    intro prev hp
    rw [List.replicate_succ, pollAll_cons_fst, ih _ (Function.update_same k _ prev)]
    simp [hp, List.replicate_succ]

theorem pollAll_run (k : Key) (prev : Key → ℤ) (N : ℕ) (hp : prev k ≠ GLFW_PRESS) :
    (pollAll prev (List.replicate (N + 1) (k, GLFW_PRESS))).1
      = (k, true) :: List.replicate N (k, false) := by
  rw [List.replicate_succ, pollAll_cons_fst,
    pollAll_held k N _ (Function.update_same k _ prev)]
  simp [hp]

/-- C4: starting from the zero-initialised `prev`, for every key and every
sequence of polls (polls of other keys interleaved at will), poll `n` of the
key fires exactly when it starts a maximal run of `GLFW_PRESS` readings: it
reads `GLFW_PRESS` and is the first poll of the key or follows a poll that read
something else.  A run of `N + 1` consecutive `GLFW_PRESS` polls entered with
a recorded state other than `GLFW_PRESS` fires once, on its first poll, and
never on the other `N`; after a poll that read something else
(`GLFW_RELEASE`), the next `GLFW_PRESS` poll fires again. -/
theorem pressedOnce_fires_once_per_run (k : Key) :
    (∀ (ps : List (Key × ℤ)) (n : ℕ),
        (firedFor k ps)[n]?
          = ((readingsFor k ps)[n]?).map (fun _ => decide (startsRun (readingsFor k ps) n)))
      ∧ (∀ (prev : Key → ℤ) (N : ℕ), prev k ≠ GLFW_PRESS →
          (pollAll prev (List.replicate (N + 1) (k, GLFW_PRESS))).1
            = (k, true) :: List.replicate N (k, false))
      ∧ (∀ (prev : Key → ℤ) (c : ℤ) (N : ℕ), c ≠ GLFW_PRESS →
          (pollAll prev ((k, c) :: List.replicate (N + 1) (k, GLFW_PRESS))).1
            = (k, false) :: (k, true) :: List.replicate N (k, false))
      ∧ initialPrev k ≠ GLFW_PRESS ∧ GLFW_RELEASE ≠ GLFW_PRESS := by
  refine ⟨?_, fun prev N hp => pollAll_run k prev N hp, ?_, ?_, ?_⟩
  · intro ps n
    have h := pollAll_fired k ps initialPrev n
    unfold firedFor
    rw [h]
    cases hc : (readingsFor k ps)[n]? with
    | none => rfl
    | some c =>
      simp only [Option.map_some', Option.some.injEq, decide_eq_decide]
      unfold startsRun
      rw [hc]
      cases n with
      | zero => simp [initialPrev, GLFW_PRESS]
      | succ m => simp
  · intro prev c N hc
    rw [pollAll_cons_fst,
      pollAll_run k _ N (by rw [Function.update_same]; exact hc)]
    simp [hc]
  · simp [initialPrev, GLFW_PRESS]
  · simp [GLFW_RELEASE, GLFW_PRESS]

/-! ## Material presets -/

theorem cyclePreset_iterate (k : ℕ) :
    (cyclePreset^[k] initialScene).preset = ((k % 3 : ℕ) : ℤ)
      ∧ (cyclePreset^[k] initialScene).albedo
          = if k % 3 = 0 then ⟨F32.lit 1.0, F32.lit 0.886, F32.lit 0.608⟩
            else if k % 3 = 1 then ⟨F32.lit 0.955, F32.lit 0.638, F32.lit 0.538⟩
            else ⟨F32.lit 0.804, F32.lit 0.498, F32.lit 0.196⟩ := by
  induction k with
  | zero => exact ⟨rfl, rfl⟩
  | succ k ih =>
    rw [Function.iterate_succ_apply']
    obtain ⟨hp, _⟩ := ih
    have h3 : k % 3 = 0 ∨ k % 3 = 1 ∨ k % 3 = 2 := by omega
    rcases h3 with h | h | h
    · have h1 : (k + 1) % 3 = 1 := by omega
      rw [h] at hp
      simp [cyclePreset, hp, h1, Int.tmod]
    · have h1 : (k + 1) % 3 = 2 := by omega
      rw [h] at hp
      simp [cyclePreset, hp, h1, Int.tmod]
    · have h1 : (k + 1) % 3 = 0 := by omega
      rw [h] at hp
      simp [cyclePreset, hp, h1, Int.tmod]

theorem presets_distinct :
    (⟨F32.lit 1.0, F32.lit 0.886, F32.lit 0.608⟩ : Vec3)
        ≠ ⟨F32.lit 0.955, F32.lit 0.638, F32.lit 0.538⟩
      ∧ (⟨F32.lit 0.955, F32.lit 0.638, F32.lit 0.538⟩ : Vec3)
        ≠ ⟨F32.lit 0.804, F32.lit 0.498, F32.lit 0.196⟩
      ∧ (⟨F32.lit 1.0, F32.lit 0.886, F32.lit 0.608⟩ : Vec3)
        ≠ ⟨F32.lit 0.804, F32.lit 0.498, F32.lit 0.196⟩ := by decide!

theorem processInput_cycle (getKey : Key → ℤ) (s : Scene) :
    (processInput getKey s).albedo
        = (if getKey GLFW_KEY_C = GLFW_PRESS ∧ s.prev GLFW_KEY_C ≠ GLFW_PRESS
            then (cyclePreset s).albedo else s.albedo)
      ∧ (processInput getKey s).preset
        = (if getKey GLFW_KEY_C = GLFW_PRESS ∧ s.prev GLFW_KEY_C ≠ GLFW_PRESS
            then (cyclePreset s).preset else s.preset) := by
  have h1 : GLFW_KEY_C ≠ GLFW_KEY_ESCAPE := by decide
  have h2 : GLFW_KEY_C ≠ GLFW_KEY_G := by decide
  have hprev : Function.update (Function.update s.prev GLFW_KEY_ESCAPE (getKey GLFW_KEY_ESCAPE))
      GLFW_KEY_G (getKey GLFW_KEY_G) GLFW_KEY_C = s.prev GLFW_KEY_C := by
    rw [Function.update_noteq h2, Function.update_noteq h1]
  unfold processInput
  simp only [pressedOnce]
  by_cases hc : getKey GLFW_KEY_C = GLFW_PRESS ∧ s.prev GLFW_KEY_C ≠ GLFW_PRESS
  · rw [if_pos hc, if_pos hc]
    split_ifs <;> simp_all [cyclePreset]
  · rw [if_neg hc, if_neg hc]
    split_ifs <;> simp_all [cyclePreset]

/-- C7: the initial state has preset counter 0 and the first preset
`(1.0, 0.886, 0.608)` as albedo; after `k` firings of the preset-cycle action
the counter is `k mod 3` and the albedo is the preset numbered `k mod 3`; three
firings return the albedo to the original preset; the three presets are
pairwise distinct, so the albedo is back at the original exactly when `k` is a
multiple of 3.  The action fires in a frame exactly when `pressedOnce` fires
for `GLFW_KEY_C`. -/
theorem preset_cycle_length_three (k : ℕ) :
    (initialScene.preset = 0
        ∧ initialScene.albedo = ⟨F32.lit 1.0, F32.lit 0.886, F32.lit 0.608⟩)
      ∧ (cyclePreset^[k] initialScene).preset = ((k % 3 : ℕ) : ℤ)
      ∧ (cyclePreset^[k] initialScene).albedo
          = (if k % 3 = 0 then ⟨F32.lit 1.0, F32.lit 0.886, F32.lit 0.608⟩
            else if k % 3 = 1 then ⟨F32.lit 0.955, F32.lit 0.638, F32.lit 0.538⟩
            else ⟨F32.lit 0.804, F32.lit 0.498, F32.lit 0.196⟩)
      ∧ (cyclePreset^[3] initialScene).albedo = initialScene.albedo
      ∧ ((cyclePreset^[k] initialScene).albedo = initialScene.albedo ↔ k % 3 = 0)
      ∧ ((⟨F32.lit 1.0, F32.lit 0.886, F32.lit 0.608⟩ : Vec3)
            ≠ ⟨F32.lit 0.955, F32.lit 0.638, F32.lit 0.538⟩
          ∧ (⟨F32.lit 0.955, F32.lit 0.638, F32.lit 0.538⟩ : Vec3)
            ≠ ⟨F32.lit 0.804, F32.lit 0.498, F32.lit 0.196⟩
          ∧ (⟨F32.lit 1.0, F32.lit 0.886, F32.lit 0.608⟩ : Vec3)
            ≠ ⟨F32.lit 0.804, F32.lit 0.498, F32.lit 0.196⟩)
      ∧ (∀ (getKey : Key → ℤ) (s : Scene),
          (processInput getKey s).albedo
            = (if getKey GLFW_KEY_C = GLFW_PRESS ∧ s.prev GLFW_KEY_C ≠ GLFW_PRESS
                then (cyclePreset s).albedo else s.albedo)) := by
  obtain ⟨d1, d2, d3⟩ := presets_distinct
  have hk := cyclePreset_iterate k
  refine ⟨⟨rfl, rfl⟩, hk.1, hk.2, (cyclePreset_iterate 3).2, ?_, ⟨d1, d2, d3⟩,
    fun getKey s => (processInput_cycle getKey s).1⟩
  rw [hk.2]
  show _ = (⟨F32.lit 1.0, F32.lit 0.886, F32.lit 0.608⟩ : Vec3) ↔ _
  have h3 : k % 3 = 0 ∨ k % 3 = 1 ∨ k % 3 = 2 := by omega
  rcases h3 with h | h | h
  · simp [h]
  · rw [h]
    simp only [one_ne_zero, if_false, if_true]
    exact ⟨fun e => absurd e.symm d1, fun e => absurd e (by norm_num)⟩
  · rw [h]
    simp only [OfNat.ofNat_ne_zero, OfNat.ofNat_ne_one, if_false]
    exact ⟨fun e => absurd e.symm d3, fun e => absurd e (by norm_num)⟩

/-! ## Releasing the mesh -/

/-- C10: after `destroy` the three names and `indexCount` are 0; a delete is
issued exactly for the names that were non-zero (and for nothing else), so a
handle whose names are all zero issues none, the all-zero handle is left
unchanged, and a second `destroy` issues no call and leaves the state of the
first. -/
theorem destroy_idempotent (m : MeshGL) :
    m.destroy.1 = { VAO := 0, VBO := 0, EBO := 0, indexCount := 0 }
      ∧ (∀ c ∈ m.destroy.2,
          (c = GLCall.deleteBuffers m.EBO ∧ m.EBO ≠ 0)
            ∨ (c = GLCall.deleteBuffers m.VBO ∧ m.VBO ≠ 0)
            ∨ (c = GLCall.deleteVertexArrays m.VAO ∧ m.VAO ≠ 0))
      ∧ ((m.EBO ≠ 0 → GLCall.deleteBuffers m.EBO ∈ m.destroy.2)
          ∧ (m.VBO ≠ 0 → GLCall.deleteBuffers m.VBO ∈ m.destroy.2)
          ∧ (m.VAO ≠ 0 → GLCall.deleteVertexArrays m.VAO ∈ m.destroy.2))
      ∧ (m.VAO = 0 ∧ m.VBO = 0 ∧ m.EBO = 0 → m.destroy.2 = [])
      ∧ (({ VAO := 0, VBO := 0, EBO := 0, indexCount := 0 } : MeshGL).destroy
          = ({ VAO := 0, VBO := 0, EBO := 0, indexCount := 0 }, []))
      ∧ m.destroy.1.destroy = (m.destroy.1, []) := by
  refine ⟨rfl, ?_, ⟨?_, ?_, ?_⟩, ?_, rfl, rfl⟩
  · intro c hc
    simp only [MeshGL.destroy, List.mem_append] at hc
    rcases hc with (hc | hc) | hc
    · by_cases h : m.EBO = 0
      · simp [h] at hc
      · simp only [ne_eq, h, not_false_eq_true, if_true, List.mem_singleton] at hc
        exact Or.inl ⟨hc, h⟩
    · by_cases h : m.VBO = 0
      · simp [h] at hc
      · simp only [ne_eq, h, not_false_eq_true, if_true, List.mem_singleton] at hc
        exact Or.inr (Or.inl ⟨hc, h⟩)
    · by_cases h : m.VAO = 0
      · simp [h] at hc
      · simp only [ne_eq, h, not_false_eq_true, if_true, List.mem_singleton] at hc
        exact Or.inr (Or.inr ⟨hc, h⟩)
  · intro h
    simp [MeshGL.destroy, h]
  · intro h
    simp [MeshGL.destroy, h]
  · intro h
    simp [MeshGL.destroy, h]
  · rintro ⟨h1, h2, h3⟩
    simp [MeshGL.destroy, h1, h2, h3]

/-! ## The material grid -/

theorem drawSpheres_grid (sphere : MeshGL) :
    drawSpheres false sphere
      = (List.range 5).flatMap (fun r : ℕ =>
          GLCall.uniform1f .uMetallic (gridMetallic r)
            :: (List.range 5).flatMap (fun c : ℕ => gridCell sphere r c)) := by
  have hrows : rows = ((5 : ℕ) : ℤ) := rfl
  have hcols : cols = ((5 : ℕ) : ℤ) := rfl
  have inner : (fun (calls : List GLCall) (r : ℤ) =>
      forLoop cols (fun calls c => calls ++ gridCell sphere r c)
        (calls ++ [GLCall.uniform1f .uMetallic (gridMetallic r)]))
      = fun calls r => calls ++ (GLCall.uniform1f .uMetallic (gridMetallic r)
          :: (List.range 5).flatMap (fun c : ℕ => gridCell sphere r c)) := by
    funext calls r
    rw [hcols, forLoop_append 5 (fun c => gridCell sphere r c)]
    simp
  unfold drawSpheres
  rw [if_neg (by simp), inner, hrows, forLoop_append 5]
  simp only [List.nil_append]

theorem gridMetallic_values :
    (List.range 5).map (fun r : ℕ => gridMetallic r)
      = [F32.fin 0, F32.fin (1 / 4), F32.fin (1 / 2), F32.fin (3 / 4), F32.fin 1] := by
  decide!

theorem gridRoughness_values :
    (List.range 5).map (fun c : ℕ => gridRoughness c)
      = [F32.fin (13421773 / 268435456), F32.fin (9646899 / 33554432),
         F32.fin (4404019 / 8388608), F32.fin (12792627 / 16777216), F32.fin 1] := by
  decide!

theorem lit_005 : F32.lit 0.05 = F32.fin (13421773 / 268435456) := by decide!

theorem gridRoughness_zero : gridRoughness 0 = F32.lit 0.05 := by decide!

/-- C6: in grid mode the calls of one frame are, row by row, the upload of the
row's metallic value followed, column by column, by the upload of the column's
roughness value, the model matrix and the draw.  On the 5x5 grid the metallic
values `float(r) / float(rows - 1)` are exactly `0, 1/4, 1/2, 3/4, 1`: 0.0 at
row 0, 1.0 at the last row, linear in between.  The roughness values
`0.05f + t * (1.0f - 0.05f)`, `t = float(c) / float(cols - 1)`, are the float
`0.05f` at column 0 and exactly 1.0 at the last column; each is finite, at
least `0.05f` (itself above zero), at most 1, and within `2^-24` of the real
number `0.05 + (c/4) * (1 - 0.05)`. -/
theorem grid_material_values (sphere : MeshGL) :
    drawSpheres false sphere
        = (List.range 5).flatMap (fun r : ℕ =>
            GLCall.uniform1f .uMetallic (gridMetallic r)
              :: (List.range 5).flatMap (fun c : ℕ => gridCell sphere r c))
      ∧ (∀ (r c : ℕ), (gridCell sphere r c)[0]? = some (GLCall.uniform1f .uRoughness (gridRoughness c)))
      ∧ (List.range 5).map (fun r : ℕ => gridMetallic r)
          = [F32.fin 0, F32.fin (1 / 4), F32.fin (1 / 2), F32.fin (3 / 4), F32.fin 1]
      ∧ (List.range 5).map (fun c : ℕ => gridRoughness c)
          = [F32.fin (13421773 / 268435456), F32.fin (9646899 / 33554432),
             F32.fin (4404019 / 8388608), F32.fin (12792627 / 16777216), F32.fin 1]
      ∧ F32.lit 0.05 = F32.fin (13421773 / 268435456)
      ∧ gridRoughness 0 = F32.lit 0.05
      ∧ (∀ q ∈ [(13421773 / 268435456 : ℚ), 9646899 / 33554432, 4404019 / 8388608,
            12792627 / 16777216, 1], (0.05 : ℚ) ≤ 13421773 / 268435456 ∧ 13421773 / 268435456 ≤ q ∧ q ≤ 1)
      ∧ (|(13421773 / 268435456 : ℚ) - (0.05 + 0 / 4 * (1 - 0.05))| ≤ 1 / 2 ^ 24
          ∧ |(9646899 / 33554432 : ℚ) - (0.05 + 1 / 4 * (1 - 0.05))| ≤ 1 / 2 ^ 24
          ∧ |(4404019 / 8388608 : ℚ) - (0.05 + 2 / 4 * (1 - 0.05))| ≤ 1 / 2 ^ 24
          ∧ |(12792627 / 16777216 : ℚ) - (0.05 + 3 / 4 * (1 - 0.05))| ≤ 1 / 2 ^ 24
          ∧ |(1 : ℚ) - (0.05 + 4 / 4 * (1 - 0.05))| ≤ 1 / 2 ^ 24) := by
  refine ⟨drawSpheres_grid sphere, fun _ _ => rfl, gridMetallic_values, gridRoughness_values,
    lit_005, gridRoughness_zero, ?_, ?_⟩
  · intro q hq
    simp only [List.mem_cons, List.mem_singleton, List.not_mem_nil, or_false] at hq
    rcases hq with h | h | h | h | h <;> subst h <;> norm_num
  · refine ⟨?_, ?_, ?_, ?_, ?_⟩ <;> rw [abs_le] <;> norm_num

/-! ## Unit positions and normals -/

/-- Functions within `e` of the true sine and cosine satisfy the Pythagorean
identity up to `4e + 2e²`. -/
theorem pythagoras_of_accurate (s c x e : ℝ) (hs : |s - Real.sin x| ≤ e)
    (hc : |c - Real.cos x| ≤ e) : |s ^ 2 + c ^ 2 - 1| ≤ 4 * e + 2 * e ^ 2 := by
  have h1 := Real.sin_sq_add_cos_sq x
  have hs1 := Real.sin_le_one x
  have hs2 := Real.neg_one_le_sin x
  have hc1 := Real.cos_le_one x
  have hc2 := Real.neg_one_le_cos x
  have ha := abs_le.mp hs
  have hb := abs_le.mp hc
  have he : 0 ≤ e := (abs_nonneg _).trans hs
  rw [abs_le]
  constructor <;> nlinarith [mul_nonneg he he]

/-- The length of a vector is at least as close to 1 as its squared length. -/
theorem sqrt_sub_one_le (m : ℝ) (hm : 0 ≤ m) : |Real.sqrt m - 1| ≤ |m - 1| := by
  have hr := Real.sqrt_nonneg m
  have hsq := Real.sq_sqrt hm
  have e : m - 1 = (Real.sqrt m - 1) * (Real.sqrt m + 1) := by
    linear_combination (-1 : ℝ) * hsq
  rw [e, abs_mul]
  have h1 : 1 ≤ |Real.sqrt m + 1| := by rw [abs_of_nonneg (by linarith)]; linarith
  calc |Real.sqrt m - 1| = |Real.sqrt m - 1| * 1 := (mul_one _).symm
    _ ≤ |Real.sqrt m - 1| * |Real.sqrt m + 1| :=
        mul_le_mul_of_nonneg_left h1 (abs_nonneg _)

/-- Exact normalisation of a vector of squared length `m ≥ 1/2` moves a
component `x` by at most `|m - 1|`. -/
theorem normalize_exact_close (x m : ℝ) (hm : 1 / 2 ≤ m) (hx : x ^ 2 ≤ m) :
    |x / Real.sqrt m - x| ≤ |m - 1| := by
  have hm0 : 0 ≤ m := by linarith
  have hr : 0 < Real.sqrt m := Real.sqrt_pos.mpr (by linarith)
  have hsq := Real.sq_sqrt hm0
  have hxr : |x| ≤ Real.sqrt m := by
    rw [← Real.sqrt_sq_eq_abs]
    exact Real.sqrt_le_sqrt hx
  have e : x / Real.sqrt m - x = (x / Real.sqrt m) * (1 - Real.sqrt m) := by
    field_simp
    ring
  have h1 : |x / Real.sqrt m| ≤ 1 := by
    rw [abs_div, abs_of_pos hr]
    exact (div_le_one hr).mpr hxr
  have h2 : |1 - Real.sqrt m| ≤ |m - 1| := by
    rw [abs_sub_comm]
    exact sqrt_sub_one_le m hm0
  rw [e, abs_mul]
  calc |x / Real.sqrt m| * |1 - Real.sqrt m| ≤ 1 * |m - 1| :=
        mul_le_mul h1 h2 (abs_nonneg _) (by norm_num)
    _ = |m - 1| := one_mul _

end Lab2
